import Mathlib

set_option synthInstance.maxSize 1024

/-!
Verification of the ZOF root-finder library (`ZOF_Project/ZOF_CLI.py`).

The six root-finding methods are embedded over the exact rationals `ℚ`.
Machine-float arithmetic is replaced by exact arithmetic; every algebraic
step of the Python source is translated literally.

Python's run-time exceptions are modelled with `Except`:
`ZeroDivisionError` (a float division by zero raises in Python, while `ℚ`
division silently yields `0`, so every division in the source is guarded by
an explicit test of its denominator) and the `NameError` that the source
raises when `max_iter = 0` (the variable holding the current estimate is
then read before ever being assigned).

A normal return is a triple `(root, error, iterations)` in which each
component is separately optional, exactly as in the Python source where the
failure return is the tuple `(None, None, None)`.
-/

/-- One iteration record `[i + 1, estimate, residual, errorMeasure]`
(source: the four-element lists appended to `iterations`). -/
abbrev IterRec : Type := ℕ × ℚ × ℚ × ℚ

/-- A run result `(root, error, iterations)`; each component is either a
value or Python's `None`. -/
abbrev RunResult : Type := Option ℚ × Option ℚ × Option (List IterRec)

/-- Python run-time faults that can escape the six methods. -/
inductive PyErr : Type
  | zeroDivision : PyErr
  | nameErr : PyErr
deriving DecidableEq

instance {ε α : Type} [DecidableEq ε] [DecidableEq α] : DecidableEq (Except ε α) := fun a b =>
  match a, b with
  | .ok x, .ok y =>
      if h : x = y then .isTrue (congrArg Except.ok h)
      else .isFalse (fun hh => h (Except.ok.inj hh))
  | .error x, .error y =>
      if h : x = y then .isTrue (congrArg Except.error h)
      else .isFalse (fun hh => h (Except.error.inj hh))
  | .ok _, .error _ => .isFalse (fun hh => Except.noConfusion hh)
  | .error _, .ok _ => .isFalse (fun hh => Except.noConfusion hh)

/-- The `for i in range(max_iter)` loop of `bisection` (source lines 30-40),
with the loop state `(a, b)`, the 1-based record index `i` and the
accumulated `iterations` list passed explicitly.  `fuel` is the number of
remaining loop passes; entering with `fuel = 0` models the `NameError` that
Python raises at line 40 when `max_iter = 0` (`c` was never assigned). -/
def bisectionLoop (f : ℚ → ℚ) (tol : ℚ) :
    ℕ → ℚ → ℚ → ℕ → List IterRec → Except PyErr RunResult
  | 0, _, _, _, _ => .error .nameErr
  | fuel + 1, a, b, i, log =>
    let c := (a + b) / 2
    let log' := log ++ [(i, c, f c, |b - a|)]
    if |f c| < tol then .ok (some c, some |b - a|, some log')
    else
      let a' := if f a * f c < 0 then a else c
      let b' := if f a * f c < 0 then c else b
      if fuel = 0 then .ok (some c, some |b' - a'|, some log')
      else bisectionLoop f tol fuel a' b' (i + 1) log'

/-- `bisection(f, a, b, tol, max_iter)` (source lines 12-40). -/
def bisection (f : ℚ → ℚ) (a b tol : ℚ) (max_iter : ℕ) : Except PyErr RunResult :=
  if 0 ≤ f a * f b then .ok (none, none, none)
  else bisectionLoop f tol max_iter a b 1 []

/-- The loop of `regula_falsi` (source lines 60-70); same state as
`bisectionLoop`, but the candidate point is the secant-interpolated
`c = (a·f(b) − b·f(a)) / (f(b) − f(a))`, whose denominator is guarded. -/
def regulaFalsiLoop (f : ℚ → ℚ) (tol : ℚ) :
    ℕ → ℚ → ℚ → ℕ → List IterRec → Except PyErr RunResult
  | 0, _, _, _, _ => .error .nameErr
  | fuel + 1, a, b, i, log =>
    if f b - f a = 0 then .error .zeroDivision
    else
      let c := (a * f b - b * f a) / (f b - f a)
      let log' := log ++ [(i, c, f c, |b - a|)]
      if |f c| < tol then .ok (some c, some |b - a|, some log')
      else
        let a' := if f a * f c < 0 then a else c
        let b' := if f a * f c < 0 then c else b
        if fuel = 0 then .ok (some c, some |b' - a'|, some log')
        else regulaFalsiLoop f tol fuel a' b' (i + 1) log'

/-- `regula_falsi(f, a, b, tol, max_iter)` (source lines 42-70). -/
def regula_falsi (f : ℚ → ℚ) (a b tol : ℚ) (max_iter : ℕ) : Except PyErr RunResult :=
  if 0 ≤ f a * f b then .ok (none, none, none)
  else regulaFalsiLoop f tol max_iter a b 1 []

/-- The loop of `secant` (source lines 86-94).  After the final pass Python
has already executed `x0 = x1; x1 = x2`, so the exhaustion return
`x2, abs(x2 - x1)` computes `|x2 - x2| = 0`; the translation keeps that
literal expression. -/
def secantLoop (f : ℚ → ℚ) (tol : ℚ) :
    ℕ → ℚ → ℚ → ℕ → List IterRec → Except PyErr RunResult
  | 0, _, _, _, _ => .error .nameErr
  | fuel + 1, x0, x1, i, log =>
    if f x1 - f x0 = 0 then .error .zeroDivision
    else
      let x2 := x1 - f x1 * (x1 - x0) / (f x1 - f x0)
      let log' := log ++ [(i, x2, f x2, |x2 - x1|)]
      if |f x2| < tol then .ok (some x2, some |x2 - x1|, some log')
      else
        if fuel = 0 then .ok (some x2, some |x2 - x2|, some log')
        else secantLoop f tol fuel x1 x2 (i + 1) log'

/-- `secant(f, x0, x1, tol, max_iter)` (source lines 72-94). -/
def secant (f : ℚ → ℚ) (x0 x1 tol : ℚ) (max_iter : ℕ) : Except PyErr RunResult :=
  secantLoop f tol max_iter x0 x1 1 []

/-- The loop of `newton_raphson` (source lines 110-117); `df x0 = 0` raises
`ZeroDivisionError`.  As in `secantLoop`, the exhaustion return happens
after `x0 = x1`, so its error term is `|x1 - x1| = 0`. -/
def newtonLoop (f df : ℚ → ℚ) (tol : ℚ) :
    ℕ → ℚ → ℕ → List IterRec → Except PyErr RunResult
  | 0, _, _, _ => .error .nameErr
  | fuel + 1, x0, i, log =>
    if df x0 = 0 then .error .zeroDivision
    else
      let x1 := x0 - f x0 / df x0
      let log' := log ++ [(i, x1, f x1, |x1 - x0|)]
      if |f x1| < tol then .ok (some x1, some |x1 - x0|, some log')
      else
        if fuel = 0 then .ok (some x1, some |x1 - x1|, some log')
        else newtonLoop f df tol fuel x1 (i + 1) log'

/-- `newton_raphson(f, df, x0, tol, max_iter)` (source lines 96-117). -/
def newton_raphson (f df : ℚ → ℚ) (x0 tol : ℚ) (max_iter : ℕ) : Except PyErr RunResult :=
  newtonLoop f df tol max_iter x0 1 []

/-- The loop of `fixed_point_iteration` (source lines 132-139); stopping
criterion is the step size `|x1 - x0| < tol`, the recorded residual is
`x1 - g x1`.  The exhaustion return happens after `x0 = x1`. -/
def fixedPointLoop (g : ℚ → ℚ) (tol : ℚ) :
    ℕ → ℚ → ℕ → List IterRec → Except PyErr RunResult
  | 0, _, _, _ => .error .nameErr
  | fuel + 1, x0, i, log =>
    let x1 := g x0
    let log' := log ++ [(i, x1, x1 - g x1, |x1 - x0|)]
    if |x1 - x0| < tol then .ok (some x1, some |x1 - x0|, some log')
    else
      if fuel = 0 then .ok (some x1, some |x1 - x1|, some log')
      else fixedPointLoop g tol fuel x1 (i + 1) log'

/-- `fixed_point_iteration(g, x0, tol, max_iter)` (source lines 119-139). -/
def fixed_point_iteration (g : ℚ → ℚ) (x0 tol : ℚ) (max_iter : ℕ) : Except PyErr RunResult :=
  fixedPointLoop g tol max_iter x0 1 []

/-- The loop of `modified_secant` (source lines 155-162); the denominator
`f(x0 + delta*x0) - f(x0)` is guarded, the update is
`x1 = x0 - f(x0)*delta*x0 / (f(x0 + delta*x0) - f(x0))`.
The exhaustion return happens after `x0 = x1`. -/
def modifiedSecantLoop (f : ℚ → ℚ) (delta tol : ℚ) :
    ℕ → ℚ → ℕ → List IterRec → Except PyErr RunResult
  | 0, _, _, _ => .error .nameErr
  | fuel + 1, x0, i, log =>
    if f (x0 + delta * x0) - f x0 = 0 then .error .zeroDivision
    else
      let x1 := x0 - f x0 * delta * x0 / (f (x0 + delta * x0) - f x0)
      let log' := log ++ [(i, x1, f x1, |x1 - x0|)]
      if |f x1| < tol then .ok (some x1, some |x1 - x0|, some log')
      else
        if fuel = 0 then .ok (some x1, some |x1 - x1|, some log')
        else modifiedSecantLoop f delta tol fuel x1 (i + 1) log'

/-- `modified_secant(f, x0, delta, tol, max_iter)` (source lines 141-162). -/
def modified_secant (f : ℚ → ℚ) (x0 delta tol : ℚ) (max_iter : ℕ) : Except PyErr RunResult :=
  modifiedSecantLoop f delta tol max_iter x0 1 []

/-! ### Helper lemmas: every `ok` return of a loop is fully populated -/

theorem bisectionLoop_ok_populated (f : ℚ → ℚ) (tol : ℚ) :
    ∀ fuel a b i log r, bisectionLoop f tol fuel a b i log = .ok r →
      r.1.isSome ∧ r.2.1.isSome ∧ r.2.2.isSome := by
  intro fuel
  induction fuel with
  | zero => intro a b i log r h; simp [bisectionLoop] at h
  | succ n ih =>
    intro a b i log r h
    simp only [bisectionLoop] at h
    split_ifs at h <;>
      first
      | (injection h with h'; subst h'; simp)
      | exact ih _ _ _ _ _ h

theorem regulaFalsiLoop_ok_populated (f : ℚ → ℚ) (tol : ℚ) :
    ∀ fuel a b i log r, regulaFalsiLoop f tol fuel a b i log = .ok r →
      r.1.isSome ∧ r.2.1.isSome ∧ r.2.2.isSome := by
  intro fuel
  induction fuel with
  | zero => intro a b i log r h; simp [regulaFalsiLoop] at h
  | succ n ih =>
    intro a b i log r h
    simp only [regulaFalsiLoop] at h
    split_ifs at h <;>
      first
      | (injection h with h'; subst h'; simp)
      | exact ih _ _ _ _ _ h

theorem secantLoop_ok_populated (f : ℚ → ℚ) (tol : ℚ) :
    ∀ fuel x0 x1 i log r, secantLoop f tol fuel x0 x1 i log = .ok r →
      r.1.isSome ∧ r.2.1.isSome ∧ r.2.2.isSome := by
  intro fuel
  induction fuel with
  | zero => intro x0 x1 i log r h; simp [secantLoop] at h
  | succ n ih =>
    intro x0 x1 i log r h
    simp only [secantLoop] at h
    split_ifs at h <;>
      first
      | (injection h with h'; subst h'; simp)
      | exact ih _ _ _ _ _ h

theorem newtonLoop_ok_populated (f df : ℚ → ℚ) (tol : ℚ) :
    ∀ fuel x0 i log r, newtonLoop f df tol fuel x0 i log = .ok r →
      r.1.isSome ∧ r.2.1.isSome ∧ r.2.2.isSome := by
  intro fuel
  induction fuel with
  | zero => intro x0 i log r h; simp [newtonLoop] at h
  | succ n ih =>
    intro x0 i log r h
    simp only [newtonLoop] at h
    split_ifs at h <;>
      first
      | (injection h with h'; subst h'; simp)
      | exact ih _ _ _ _ h

theorem fixedPointLoop_ok_populated (g : ℚ → ℚ) (tol : ℚ) :
    ∀ fuel x0 i log r, fixedPointLoop g tol fuel x0 i log = .ok r →
      r.1.isSome ∧ r.2.1.isSome ∧ r.2.2.isSome := by
  intro fuel
  induction fuel with
  | zero => intro x0 i log r h; simp [fixedPointLoop] at h
  | succ n ih =>
    intro x0 i log r h
    simp only [fixedPointLoop] at h
    split_ifs at h <;>
      first
      | (injection h with h'; subst h'; simp)
      | exact ih _ _ _ _ h

theorem modifiedSecantLoop_ok_populated (f : ℚ → ℚ) (delta tol : ℚ) :
    ∀ fuel x0 i log r, modifiedSecantLoop f delta tol fuel x0 i log = .ok r →
      r.1.isSome ∧ r.2.1.isSome ∧ r.2.2.isSome := by
  intro fuel
  induction fuel with
  | zero => intro x0 i log r h; simp [modifiedSecantLoop] at h
  | succ n ih =>
    intro x0 i log r h
    simp only [modifiedSecantLoop] at h
    split_ifs at h <;>
      first
      | (injection h with h'; subst h'; simp)
      | exact ih _ _ _ _ h

/-! ### Helper lemmas: a zero denominator at the current state faults at once -/

theorem secantLoop_zero_denom (f : ℚ → ℚ) (tol : ℚ) (fuel : ℕ) (x0 x1 : ℚ)
    (i : ℕ) (log : List IterRec) (hfuel : 1 ≤ fuel) (h : f x1 = f x0) :
    secantLoop f tol fuel x0 x1 i log = .error .zeroDivision := by
  obtain ⟨n, rfl⟩ : ∃ n, fuel = n + 1 := ⟨fuel - 1, by omega⟩
  simp only [secantLoop]
  rw [if_pos (sub_eq_zero_of_eq h)]

theorem newtonLoop_zero_denom (f df : ℚ → ℚ) (tol : ℚ) (fuel : ℕ) (x0 : ℚ)
    (i : ℕ) (log : List IterRec) (hfuel : 1 ≤ fuel) (h : df x0 = 0) :
    newtonLoop f df tol fuel x0 i log = .error .zeroDivision := by
  obtain ⟨n, rfl⟩ : ∃ n, fuel = n + 1 := ⟨fuel - 1, by omega⟩
  simp only [newtonLoop]
  rw [if_pos h]

theorem modifiedSecantLoop_zero_denom (f : ℚ → ℚ) (delta tol : ℚ) (fuel : ℕ)
    (x0 : ℚ) (i : ℕ) (log : List IterRec) (hfuel : 1 ≤ fuel)
    (h : f (x0 + delta * x0) = f x0) :
    modifiedSecantLoop f delta tol fuel x0 i log = .error .zeroDivision := by
  obtain ⟨n, rfl⟩ : ∃ n, fuel = n + 1 := ⟨fuel - 1, by omega⟩
  simp only [modifiedSecantLoop]
  rw [if_pos (sub_eq_zero_of_eq h)]

/-! ### Helper lemmas: the log numbers its passes `1..n` and ends at the root -/

theorem snoc_index_range' (log : List IterRec) (rec : IterRec)
    (hmap : log.map Prod.fst = List.range' 1 log.length)
    (hidx : rec.1 = log.length + 1) :
    (log ++ [rec]).map Prod.fst = List.range' 1 (log ++ [rec]).length := by
  have h1 : [rec.1] = List.range' (1 + log.length) 1 := by
    simp [List.range'_one, hidx, Nat.add_comm]
  simp only [List.map_append, List.length_append, List.map_cons, List.map_nil, hmap]
  rw [h1, List.range'_append_1]
  simp [Nat.add_comm]

theorem getLast_pick_elim (l : List IterRec) (r : ℚ)
    (h : l.getLast?.map (fun rec => (rec.1, rec.2.1)) = some (l.length, r)) :
    ∃ rec, l.getLast? = some rec ∧ rec.1 = l.length ∧ rec.2.1 = r := by
  cases hl : l.getLast? with
  | none => rw [hl] at h; simp at h
  | some rec =>
    rw [hl] at h
    simp only [Option.map_some', Option.some.injEq, Prod.mk.injEq] at h
    exact ⟨rec, rfl, h.1, h.2⟩

theorem bisectionLoop_log_spec (f : ℚ → ℚ) (tol : ℚ) :
    ∀ fuel a b i log r e l,
      i = log.length + 1 →
      log.map Prod.fst = List.range' 1 log.length →
      bisectionLoop f tol fuel a b i log = .ok (some r, e, some l) →
      l.map Prod.fst = List.range' 1 l.length ∧
      l.getLast?.map (fun rec => (rec.1, rec.2.1)) = some (l.length, r) := by
  intro fuel
  induction fuel with
  | zero => intro a b i log r e l _ _ h; simp [bisectionLoop] at h
  | succ n ih =>
    intro a b i log r e l hi hmap h
    simp only [bisectionLoop] at h
    split_ifs at h <;>
      first
      | exact ih _ _ _ _ _ _ _ (by simp [hi]) (snoc_index_range' log _ hmap hi) h
      | · simp only [Except.ok.injEq, Prod.mk.injEq, Option.some.injEq] at h
          obtain ⟨hc, -, hl⟩ := h
          subst hc; subst hl
          exact ⟨snoc_index_range' log _ hmap hi, by simp [List.getLast?_concat, hi]⟩

theorem regulaFalsiLoop_log_spec (f : ℚ → ℚ) (tol : ℚ) :
    ∀ fuel a b i log r e l,
      i = log.length + 1 →
      log.map Prod.fst = List.range' 1 log.length →
      regulaFalsiLoop f tol fuel a b i log = .ok (some r, e, some l) →
      l.map Prod.fst = List.range' 1 l.length ∧
      l.getLast?.map (fun rec => (rec.1, rec.2.1)) = some (l.length, r) := by
  intro fuel
  induction fuel with
  | zero => intro a b i log r e l _ _ h; simp [regulaFalsiLoop] at h
  | succ n ih =>
    intro a b i log r e l hi hmap h
    simp only [regulaFalsiLoop] at h
    split_ifs at h <;>
      first
      | exact Except.noConfusion h
      | exact ih _ _ _ _ _ _ _ (by simp [hi]) (snoc_index_range' log _ hmap hi) h
      | · simp only [Except.ok.injEq, Prod.mk.injEq, Option.some.injEq] at h
          obtain ⟨hc, -, hl⟩ := h
          subst hc; subst hl
          exact ⟨snoc_index_range' log _ hmap hi, by simp [List.getLast?_concat, hi]⟩

theorem secantLoop_log_spec (f : ℚ → ℚ) (tol : ℚ) :
    ∀ fuel x0 x1 i log r e l,
      i = log.length + 1 →
      log.map Prod.fst = List.range' 1 log.length →
      secantLoop f tol fuel x0 x1 i log = .ok (some r, e, some l) →
      l.map Prod.fst = List.range' 1 l.length ∧
      l.getLast?.map (fun rec => (rec.1, rec.2.1)) = some (l.length, r) := by
  intro fuel
  induction fuel with
  | zero => intro x0 x1 i log r e l _ _ h; simp [secantLoop] at h
  | succ n ih =>
    intro x0 x1 i log r e l hi hmap h
    simp only [secantLoop] at h
    split_ifs at h <;>
      first
      | exact Except.noConfusion h
      | exact ih _ _ _ _ _ _ _ (by simp [hi]) (snoc_index_range' log _ hmap hi) h
      | · simp only [Except.ok.injEq, Prod.mk.injEq, Option.some.injEq] at h
          obtain ⟨hc, -, hl⟩ := h
          subst hc; subst hl
          exact ⟨snoc_index_range' log _ hmap hi, by simp [List.getLast?_concat, hi]⟩

theorem newtonLoop_log_spec (f df : ℚ → ℚ) (tol : ℚ) :
    ∀ fuel x0 i log r e l,
      i = log.length + 1 →
      log.map Prod.fst = List.range' 1 log.length →
      newtonLoop f df tol fuel x0 i log = .ok (some r, e, some l) →
      l.map Prod.fst = List.range' 1 l.length ∧
      l.getLast?.map (fun rec => (rec.1, rec.2.1)) = some (l.length, r) := by
  intro fuel
  induction fuel with
  | zero => intro x0 i log r e l _ _ h; simp [newtonLoop] at h
  | succ n ih =>
    intro x0 i log r e l hi hmap h
    simp only [newtonLoop] at h
    split_ifs at h <;>
      first
      | exact Except.noConfusion h
      | exact ih _ _ _ _ _ _ (by simp [hi]) (snoc_index_range' log _ hmap hi) h
      | · simp only [Except.ok.injEq, Prod.mk.injEq, Option.some.injEq] at h
          obtain ⟨hc, -, hl⟩ := h
          subst hc; subst hl
          exact ⟨snoc_index_range' log _ hmap hi, by simp [List.getLast?_concat, hi]⟩

theorem fixedPointLoop_log_spec (g : ℚ → ℚ) (tol : ℚ) :
    ∀ fuel x0 i log r e l,
      i = log.length + 1 →
      log.map Prod.fst = List.range' 1 log.length →
      fixedPointLoop g tol fuel x0 i log = .ok (some r, e, some l) →
      l.map Prod.fst = List.range' 1 l.length ∧
      l.getLast?.map (fun rec => (rec.1, rec.2.1)) = some (l.length, r) := by
  intro fuel
  induction fuel with
  | zero => intro x0 i log r e l _ _ h; simp [fixedPointLoop] at h
  | succ n ih =>
    intro x0 i log r e l hi hmap h
    simp only [fixedPointLoop] at h
    split_ifs at h <;>
      first
      | exact ih _ _ _ _ _ _ (by simp [hi]) (snoc_index_range' log _ hmap hi) h
      | · simp only [Except.ok.injEq, Prod.mk.injEq, Option.some.injEq] at h
          obtain ⟨hc, -, hl⟩ := h
          subst hc; subst hl
          exact ⟨snoc_index_range' log _ hmap hi, by simp [List.getLast?_concat, hi]⟩

theorem modifiedSecantLoop_log_spec (f : ℚ → ℚ) (delta tol : ℚ) :
    ∀ fuel x0 i log r e l,
      i = log.length + 1 →
      log.map Prod.fst = List.range' 1 log.length →
      modifiedSecantLoop f delta tol fuel x0 i log = .ok (some r, e, some l) →
      l.map Prod.fst = List.range' 1 l.length ∧
      l.getLast?.map (fun rec => (rec.1, rec.2.1)) = some (l.length, r) := by
  intro fuel
  induction fuel with
  | zero => intro x0 i log r e l _ _ h; simp [modifiedSecantLoop] at h
  | succ n ih =>
    intro x0 i log r e l hi hmap h
    simp only [modifiedSecantLoop] at h
    split_ifs at h <;>
      first
      | exact Except.noConfusion h
      | exact ih _ _ _ _ _ _ (by simp [hi]) (snoc_index_range' log _ hmap hi) h
      | · simp only [Except.ok.injEq, Prod.mk.injEq, Option.some.injEq] at h
          obtain ⟨hc, -, hl⟩ := h
          subst hc; subst hl
          exact ⟨snoc_index_range' log _ hmap hi, by simp [List.getLast?_concat, hi]⟩

/-! ### Helper lemmas: totality, halving and the width formula for bisection -/

theorem bisectionLoop_total (f : ℚ → ℚ) (tol : ℚ) :
    ∀ fuel a b i log, 1 ≤ fuel →
      ∃ r e l, bisectionLoop f tol fuel a b i log = .ok (some r, some e, some l) ∧
        l.length ≤ log.length + fuel ∧ (|f r| < tol ∨ l.length = log.length + fuel) := by
  intro fuel
  induction fuel with
  | zero => intro a b i log h; omega
  | succ n ih =>
    intro a b i log _
    by_cases h1 : |f ((a + b) / 2)| < tol
    · refine ⟨(a + b) / 2, |b - a|, log ++ [(i, (a + b) / 2, f ((a + b) / 2), |b - a|)],
        ?_, by simp, Or.inl h1⟩
      simp only [bisectionLoop]
      rw [if_pos h1]
    · by_cases h2 : n = 0
      · subst h2
        refine ⟨(a + b) / 2,
          |(if f a * f ((a + b) / 2) < 0 then (a + b) / 2 else b) -
            (if f a * f ((a + b) / 2) < 0 then a else (a + b) / 2)|,
          log ++ [(i, (a + b) / 2, f ((a + b) / 2), |b - a|)],
          ?_, by simp, Or.inr (by simp)⟩
        simp only [bisectionLoop]
        rw [if_neg h1]
        simp
      · obtain ⟨r, e, l, heq, hle, hor⟩ :=
          ih (if f a * f ((a + b) / 2) < 0 then a else (a + b) / 2)
            (if f a * f ((a + b) / 2) < 0 then (a + b) / 2 else b) (i + 1)
            (log ++ [(i, (a + b) / 2, f ((a + b) / 2), |b - a|)]) (by omega)
        refine ⟨r, e, l, ?_, ?_, ?_⟩
        · simp only [bisectionLoop]
          rw [if_neg h1, if_neg h2]
          exact heq
        · simp only [List.length_append, List.length_cons, List.length_nil] at hle
          omega
        · rcases hor with h | h
          · exact Or.inl h
          · simp only [List.length_append, List.length_cons, List.length_nil] at h
            exact Or.inr (by omega)

theorem half_width_left (a b : ℚ) : |(a + b) / 2 - a| = |b - a| / 2 := by
  rw [show (a + b) / 2 - a = (b - a) / 2 by ring, abs_div, abs_two]

theorem half_width_right (a b : ℚ) : |b - (a + b) / 2| = |b - a| / 2 := by
  rw [show b - (a + b) / 2 = (b - a) / 2 by ring, abs_div, abs_two]

theorem bisectionLoop_chain (f : ℚ → ℚ) (tol : ℚ) :
    ∀ fuel a b i log,
      log.Chain' (fun p q => q.2.2.2 = p.2.2.2 / 2) →
      (∀ rec, log.getLast? = some rec → rec.2.2.2 = 2 * |b - a|) →
      ∀ r e l, bisectionLoop f tol fuel a b i log = .ok (r, e, some l) →
      l.Chain' (fun p q => q.2.2.2 = p.2.2.2 / 2) := by
  intro fuel
  induction fuel with
  | zero => intro a b i log _ _ r e l h; simp [bisectionLoop] at h
  | succ n ih =>
    intro a b i log hchain hlast r e l h
    simp only [bisectionLoop] at h
    have hsnoc : (log ++ [(i, (a + b) / 2, f ((a + b) / 2), |b - a|)]).Chain'
        (fun p q => q.2.2.2 = p.2.2.2 / 2) := by
      rw [List.chain'_append]
      refine ⟨hchain, by simp, ?_⟩
      intro x hx y hy
      simp only [List.head?_cons, Option.mem_def, Option.some.injEq] at hy
      subst hy
      have := hlast x (Option.mem_def.mp hx)
      simp only [this]
      ring
    split_ifs at h <;>
      first
      | · simp only [Except.ok.injEq, Prod.mk.injEq, Option.some.injEq] at h
          obtain ⟨-, -, hl⟩ := h
          subst hl
          exact hsnoc
      | · refine ih _ _ _ _ hsnoc ?_ _ _ _ h
          intro rec' hr
          rw [List.getLast?_concat] at hr
          injection hr with hr'
          subst hr'
          dsimp only
          first
          | rw [half_width_left]; ring
          | rw [half_width_right]; ring

theorem get_snoc_width (log : List IterRec) (rec : IterRec) (w0 : ℚ)
    (hget : ∀ k (hk : k < log.length), (log.get ⟨k, hk⟩).2.2.2 = w0 / 2 ^ k)
    (hrec : rec.2.2.2 = w0 / 2 ^ log.length) :
    ∀ k (hk : k < (log ++ [rec]).length), ((log ++ [rec]).get ⟨k, hk⟩).2.2.2 = w0 / 2 ^ k := by
  intro k hk
  rcases lt_or_ge k log.length with h | h
  · rw [List.get_append _ h]
    exact hget k h
  · have hk' : k = log.length := by
      simp only [List.length_append, List.length_cons, List.length_nil] at hk
      omega
    subst hk'
    have : (log ++ [rec]).get ⟨log.length, hk⟩ = rec := by
      simp [List.get_eq_getElem]
    rw [this]
    exact hrec

theorem bisectionLoop_width (f : ℚ → ℚ) (tol w0 : ℚ) :
    ∀ fuel a b i log,
      (∀ k (hk : k < log.length), (log.get ⟨k, hk⟩).2.2.2 = w0 / 2 ^ k) →
      |b - a| = w0 / 2 ^ log.length →
      ∀ r e l, bisectionLoop f tol fuel a b i log = .ok (r, e, some l) →
      ∀ k (hk : k < l.length), (l.get ⟨k, hk⟩).2.2.2 = w0 / 2 ^ k := by
  intro fuel
  induction fuel with
  | zero => intro a b i log _ _ r e l h; simp [bisectionLoop] at h
  | succ n ih =>
    intro a b i log hget hw r e l h
    simp only [bisectionLoop] at h
    have hget' := get_snoc_width log (i, (a + b) / 2, f ((a + b) / 2), |b - a|) w0 hget hw
    have hlen' : (log ++ [(i, (a + b) / 2, f ((a + b) / 2), |b - a|)]).length = log.length + 1 := by
      simp
    split_ifs at h <;>
      first
      | · simp only [Except.ok.injEq, Prod.mk.injEq, Option.some.injEq] at h
          obtain ⟨-, -, hl⟩ := h
          subst hl
          exact hget'
      | · refine ih _ _ _ _ hget' ?_ _ _ _ h
          rw [hlen', pow_succ]
          first
          | rw [half_width_left, hw]; ring
          | rw [half_width_right, hw]; ring

/-! ### Helper lemmas: bracket preservation and the regula-falsi denominator -/

theorem bracket_update_preserved (f : ℚ → ℚ) (a b c tol : ℚ)
    (hab : f a * f b < 0) (htol : 0 < tol) (hnc : ¬(|f c| < tol)) :
    f (if f a * f c < 0 then a else c) * f (if f a * f c < 0 then c else b) < 0 := by
  by_cases h : f a * f c < 0
  · rw [if_pos h, if_pos h]; exact h
  · rw [if_neg h, if_neg h]
    have hc : f c ≠ 0 := by
      intro h0
      exact hnc (by rw [h0, abs_zero]; exact htol)
    have ha : f a ≠ 0 := by
      intro h0
      rw [h0, zero_mul] at hab
      exact absurd hab (lt_irrefl 0)
    have hpos : 0 < f a * f c :=
      lt_of_le_of_ne (not_lt.mp h) (Ne.symm (mul_ne_zero ha hc))
    nlinarith [hab, hpos, sq_nonneg (f a)]

theorem regulaFalsiLoop_ne_zeroDivision (f : ℚ → ℚ) (tol : ℚ) (htol : 0 < tol) :
    ∀ fuel a b i log, f a * f b < 0 →
      regulaFalsiLoop f tol fuel a b i log ≠ .error .zeroDivision := by
  intro fuel
  induction fuel with
  | zero => intro a b i log hab h; simp [regulaFalsiLoop] at h
  | succ n ih =>
    intro a b i log hab h
    have hdenom : f b - f a ≠ 0 := by
      intro h0
      rw [sub_eq_zero.mp h0] at hab
      exact absurd hab (by nlinarith [mul_self_nonneg (f a)])
    simp only [regulaFalsiLoop] at h
    rw [if_neg hdenom] at h
    by_cases h1 : |f ((a * f b - b * f a) / (f b - f a))| < tol
    · rw [if_pos h1] at h
      exact Except.noConfusion h
    · rw [if_neg h1] at h
      by_cases h2 : n = 0
      · rw [if_pos h2] at h
        exact Except.noConfusion h
      · rw [if_neg h2] at h
        exact ih _ _ _ _ (bracket_update_preserved f a b _ tol hab htol h1) h

theorem bisectionLoop_ne_zeroDivision (f : ℚ → ℚ) (tol : ℚ) :
    ∀ fuel a b i log,
      bisectionLoop f tol fuel a b i log ≠ .error .zeroDivision := by
  intro fuel
  induction fuel with
  | zero => intro a b i log h; simp [bisectionLoop] at h
  | succ n ih =>
    intro a b i log h
    simp only [bisectionLoop] at h
    split_ifs at h <;>
      first
      | exact Except.noConfusion h
      | exact ih _ _ _ _ h

/-! ### Claim theorems -/

/-- C1: for every function `f`, endpoints `a`, `b`, positive tolerance and
positive `max_iter`, if `f a * f b ≥ 0` (including the boundary case
`f a * f b = 0`), then `bisection` and `regula_falsi` fail before any
iteration and return the absent result `(None, None, None)`: no root, no
error and no log. -/
theorem C1_no_bracket_rejected (f : ℚ → ℚ) (a b tol : ℚ) (max_iter : ℕ)
    (htol : 0 < tol) (hiter : 1 ≤ max_iter) (h : 0 ≤ f a * f b) :
    bisection f a b tol max_iter = .ok (none, none, none) ∧
    regula_falsi f a b tol max_iter = .ok (none, none, none) := by
  constructor
  · rw [bisection, if_pos h]
  · rw [regula_falsi, if_pos h]

/-- Witness for C1 at `f x = x`, `a = 1`, `b = 2` (no sign change),
`tol = 1`, `max_iter = 5`. -/
theorem C1_no_bracket_rejected_witness :
    bisection (fun x : ℚ => x) 1 2 1 5 = .ok (none, none, none) ∧
    regula_falsi (fun x : ℚ => x) 1 2 1 5 = .ok (none, none, none) :=
  C1_no_bracket_rejected (fun x : ℚ => x) 1 2 1 5 (by norm_num) (by norm_num) (by norm_num)

/-- C2: every return of any of the six methods is either fully populated
(root, error and log all present) or the fully absent `(None, None, None)`;
no return is partially populated. -/
theorem C2_all_or_none :
    (∀ (f : ℚ → ℚ) (a b tol : ℚ) (m : ℕ) (r : RunResult), bisection f a b tol m = .ok r →
      (r.1.isSome ∧ r.2.1.isSome ∧ r.2.2.isSome) ∨ r = (none, none, none)) ∧
    (∀ (f : ℚ → ℚ) (a b tol : ℚ) (m : ℕ) (r : RunResult), regula_falsi f a b tol m = .ok r →
      (r.1.isSome ∧ r.2.1.isSome ∧ r.2.2.isSome) ∨ r = (none, none, none)) ∧
    (∀ (f : ℚ → ℚ) (x0 x1 tol : ℚ) (m : ℕ) (r : RunResult), secant f x0 x1 tol m = .ok r →
      (r.1.isSome ∧ r.2.1.isSome ∧ r.2.2.isSome) ∨ r = (none, none, none)) ∧
    (∀ (f df : ℚ → ℚ) (x0 tol : ℚ) (m : ℕ) (r : RunResult), newton_raphson f df x0 tol m = .ok r →
      (r.1.isSome ∧ r.2.1.isSome ∧ r.2.2.isSome) ∨ r = (none, none, none)) ∧
    (∀ (g : ℚ → ℚ) (x0 tol : ℚ) (m : ℕ) (r : RunResult), fixed_point_iteration g x0 tol m = .ok r →
      (r.1.isSome ∧ r.2.1.isSome ∧ r.2.2.isSome) ∨ r = (none, none, none)) ∧
    (∀ (f : ℚ → ℚ) (x0 delta tol : ℚ) (m : ℕ) (r : RunResult), modified_secant f x0 delta tol m = .ok r →
      (r.1.isSome ∧ r.2.1.isSome ∧ r.2.2.isSome) ∨ r = (none, none, none)) := by
  refine ⟨?_, ?_, ?_, ?_, ?_, ?_⟩
  · intro f a b tol m r h
    rw [bisection] at h
    split_ifs at h with hpre
    · injection h with h'
      exact Or.inr h'.symm
    · exact Or.inl (bisectionLoop_ok_populated f tol m a b 1 [] r h)
  · intro f a b tol m r h
    rw [regula_falsi] at h
    split_ifs at h with hpre
    · injection h with h'
      exact Or.inr h'.symm
    · exact Or.inl (regulaFalsiLoop_ok_populated f tol m a b 1 [] r h)
  · intro f x0 x1 tol m r h
    exact Or.inl (secantLoop_ok_populated f tol m x0 x1 1 [] r h)
  · intro f df x0 tol m r h
    exact Or.inl (newtonLoop_ok_populated f df tol m x0 1 [] r h)
  · intro g x0 tol m r h
    exact Or.inl (fixedPointLoop_ok_populated g tol m x0 1 [] r h)
  · intro f x0 delta tol m r h
    exact Or.inl (modifiedSecantLoop_ok_populated f delta tol m x0 1 [] r h)

/-- Witness for C2: one successful concrete run of each of the six methods. -/
theorem C2_all_or_none_witness :
    ((((some ((3:ℚ)/2), some (1:ℚ), some [((1:ℕ), (3:ℚ)/2, (1:ℚ)/4, 1)]) : RunResult).1.isSome ∧
        (((some ((3:ℚ)/2), some (1:ℚ), some [((1:ℕ), (3:ℚ)/2, (1:ℚ)/4, 1)]) : RunResult).2.1.isSome) ∧
        (((some ((3:ℚ)/2), some (1:ℚ), some [((1:ℕ), (3:ℚ)/2, (1:ℚ)/4, 1)]) : RunResult).2.2.isSome)) ∨
      ((some ((3:ℚ)/2), some (1:ℚ), some [((1:ℕ), (3:ℚ)/2, (1:ℚ)/4, 1)]) : RunResult) = (none, none, none)) ∧
    ((((some ((4:ℚ)/3), some (1:ℚ), some [((1:ℕ), (4:ℚ)/3, -(2:ℚ)/9, 1)]) : RunResult).1.isSome ∧
        (((some ((4:ℚ)/3), some (1:ℚ), some [((1:ℕ), (4:ℚ)/3, -(2:ℚ)/9, 1)]) : RunResult).2.1.isSome) ∧
        (((some ((4:ℚ)/3), some (1:ℚ), some [((1:ℕ), (4:ℚ)/3, -(2:ℚ)/9, 1)]) : RunResult).2.2.isSome)) ∨
      ((some ((4:ℚ)/3), some (1:ℚ), some [((1:ℕ), (4:ℚ)/3, -(2:ℚ)/9, 1)]) : RunResult) = (none, none, none)) ∧
    ((((some (1:ℚ), some (1:ℚ), some [((1:ℕ), (1:ℚ), (0:ℚ), 1)]) : RunResult).1.isSome ∧
        (((some (1:ℚ), some (1:ℚ), some [((1:ℕ), (1:ℚ), (0:ℚ), 1)]) : RunResult).2.1.isSome) ∧
        (((some (1:ℚ), some (1:ℚ), some [((1:ℕ), (1:ℚ), (0:ℚ), 1)]) : RunResult).2.2.isSome)) ∨
      ((some (1:ℚ), some (1:ℚ), some [((1:ℕ), (1:ℚ), (0:ℚ), 1)]) : RunResult) = (none, none, none)) ∧
    ((((some (0:ℚ), some (1:ℚ), some [((1:ℕ), (0:ℚ), (0:ℚ), 1)]) : RunResult).1.isSome ∧
        (((some (0:ℚ), some (1:ℚ), some [((1:ℕ), (0:ℚ), (0:ℚ), 1)]) : RunResult).2.1.isSome) ∧
        (((some (0:ℚ), some (1:ℚ), some [((1:ℕ), (0:ℚ), (0:ℚ), 1)]) : RunResult).2.2.isSome)) ∨
      ((some (0:ℚ), some (1:ℚ), some [((1:ℕ), (0:ℚ), (0:ℚ), 1)]) : RunResult) = (none, none, none)) ∧
    ((((some (1:ℚ), some (0:ℚ), some [((1:ℕ), (1:ℚ), (0:ℚ), 0)]) : RunResult).1.isSome ∧
        (((some (1:ℚ), some (0:ℚ), some [((1:ℕ), (1:ℚ), (0:ℚ), 0)]) : RunResult).2.1.isSome) ∧
        (((some (1:ℚ), some (0:ℚ), some [((1:ℕ), (1:ℚ), (0:ℚ), 0)]) : RunResult).2.2.isSome)) ∨
      ((some (1:ℚ), some (0:ℚ), some [((1:ℕ), (1:ℚ), (0:ℚ), 0)]) : RunResult) = (none, none, none)) ∧
    ((((some (1:ℚ), some (1:ℚ), some [((1:ℕ), (1:ℚ), (0:ℚ), 1)]) : RunResult).1.isSome ∧
        (((some (1:ℚ), some (1:ℚ), some [((1:ℕ), (1:ℚ), (0:ℚ), 1)]) : RunResult).2.1.isSome) ∧
        (((some (1:ℚ), some (1:ℚ), some [((1:ℕ), (1:ℚ), (0:ℚ), 1)]) : RunResult).2.2.isSome)) ∨
      ((some (1:ℚ), some (1:ℚ), some [((1:ℕ), (1:ℚ), (0:ℚ), 1)]) : RunResult) = (none, none, none)) :=
  ⟨C2_all_or_none.1 (fun x : ℚ => x * x - 2) 1 2 1 1 _
      (by norm_num [bisection, bisectionLoop, abs_of_nonneg, abs_of_nonpos]),
   C2_all_or_none.2.1 (fun x : ℚ => x * x - 2) 1 2 1 1 _
      (by norm_num [regula_falsi, regulaFalsiLoop, abs_of_nonneg, abs_of_nonpos]),
   C2_all_or_none.2.2.1 (fun x : ℚ => x - 1) 0 2 1 1 _
      (by norm_num [secant, secantLoop, abs_of_nonneg, abs_of_nonpos]),
   C2_all_or_none.2.2.2.1 (fun x : ℚ => x) (fun _ : ℚ => 1) 1 1 1 _
      (by norm_num [newton_raphson, newtonLoop, abs_of_nonneg, abs_of_nonpos]),
   C2_all_or_none.2.2.2.2.1 (fun _ : ℚ => 1) 1 1 1 _
      (by norm_num [fixed_point_iteration, fixedPointLoop, abs_of_nonneg, abs_of_nonpos]),
   C2_all_or_none.2.2.2.2.2 (fun x : ℚ => x - 1) 2 1 1 1 _
      (by norm_num [modified_secant, modifiedSecantLoop, abs_of_nonneg, abs_of_nonpos])⟩

/-- C3: for every one of the six methods, every populated return carries a
log whose index column is exactly `1..length` (so the length equals the
number of loop passes performed, one record being appended per pass), and
the estimate stored in the last record equals the returned root — in this
code that holds for every populated return, converged or not, hence in
particular when the stopping tolerance was met. -/
theorem C3_log_length_and_last_root :
    (∀ (f : ℚ → ℚ) (a b tol : ℚ) (m : ℕ) (r : ℚ) (e : Option ℚ) (l : List IterRec),
      bisection f a b tol m = .ok (some r, e, some l) →
      l.map Prod.fst = List.range' 1 l.length ∧
      ∃ rec, l.getLast? = some rec ∧ rec.1 = l.length ∧ rec.2.1 = r) ∧
    (∀ (f : ℚ → ℚ) (a b tol : ℚ) (m : ℕ) (r : ℚ) (e : Option ℚ) (l : List IterRec),
      regula_falsi f a b tol m = .ok (some r, e, some l) →
      l.map Prod.fst = List.range' 1 l.length ∧
      ∃ rec, l.getLast? = some rec ∧ rec.1 = l.length ∧ rec.2.1 = r) ∧
    (∀ (f : ℚ → ℚ) (x0 x1 tol : ℚ) (m : ℕ) (r : ℚ) (e : Option ℚ) (l : List IterRec),
      secant f x0 x1 tol m = .ok (some r, e, some l) →
      l.map Prod.fst = List.range' 1 l.length ∧
      ∃ rec, l.getLast? = some rec ∧ rec.1 = l.length ∧ rec.2.1 = r) ∧
    (∀ (f df : ℚ → ℚ) (x0 tol : ℚ) (m : ℕ) (r : ℚ) (e : Option ℚ) (l : List IterRec),
      newton_raphson f df x0 tol m = .ok (some r, e, some l) →
      l.map Prod.fst = List.range' 1 l.length ∧
      ∃ rec, l.getLast? = some rec ∧ rec.1 = l.length ∧ rec.2.1 = r) ∧
    (∀ (g : ℚ → ℚ) (x0 tol : ℚ) (m : ℕ) (r : ℚ) (e : Option ℚ) (l : List IterRec),
      fixed_point_iteration g x0 tol m = .ok (some r, e, some l) →
      l.map Prod.fst = List.range' 1 l.length ∧
      ∃ rec, l.getLast? = some rec ∧ rec.1 = l.length ∧ rec.2.1 = r) ∧
    (∀ (f : ℚ → ℚ) (x0 delta tol : ℚ) (m : ℕ) (r : ℚ) (e : Option ℚ) (l : List IterRec),
      modified_secant f x0 delta tol m = .ok (some r, e, some l) →
      l.map Prod.fst = List.range' 1 l.length ∧
      ∃ rec, l.getLast? = some rec ∧ rec.1 = l.length ∧ rec.2.1 = r) := by
  refine ⟨?_, ?_, ?_, ?_, ?_, ?_⟩
  · intro f a b tol m r e l h
    rw [bisection] at h
    split_ifs at h with hpre
    · injection h with h'
      simp at h'
    · obtain ⟨hmap, hlast⟩ :=
        bisectionLoop_log_spec f tol m a b 1 [] r e l (by simp) (by simp) h
      exact ⟨hmap, getLast_pick_elim l r hlast⟩
  · intro f a b tol m r e l h
    rw [regula_falsi] at h
    split_ifs at h with hpre
    · injection h with h'
      simp at h'
    · obtain ⟨hmap, hlast⟩ :=
        regulaFalsiLoop_log_spec f tol m a b 1 [] r e l (by simp) (by simp) h
      exact ⟨hmap, getLast_pick_elim l r hlast⟩
  · intro f x0 x1 tol m r e l h
    obtain ⟨hmap, hlast⟩ :=
      secantLoop_log_spec f tol m x0 x1 1 [] r e l (by simp) (by simp) h
    exact ⟨hmap, getLast_pick_elim l r hlast⟩
  · intro f df x0 tol m r e l h
    obtain ⟨hmap, hlast⟩ :=
      newtonLoop_log_spec f df tol m x0 1 [] r e l (by simp) (by simp) h
    exact ⟨hmap, getLast_pick_elim l r hlast⟩
  · intro g x0 tol m r e l h
    obtain ⟨hmap, hlast⟩ :=
      fixedPointLoop_log_spec g tol m x0 1 [] r e l (by simp) (by simp) h
    exact ⟨hmap, getLast_pick_elim l r hlast⟩
  · intro f x0 delta tol m r e l h
    obtain ⟨hmap, hlast⟩ :=
      modifiedSecantLoop_log_spec f delta tol m x0 1 [] r e l (by simp) (by simp) h
    exact ⟨hmap, getLast_pick_elim l r hlast⟩

/-- Witness for C3: the same six concrete one-pass converged runs as for C2. -/
theorem C3_log_length_and_last_root_witness :
    (([((1:ℕ), (3:ℚ)/2, (1:ℚ)/4, (1:ℚ))] : List IterRec).map Prod.fst = List.range' 1 ([((1:ℕ), (3:ℚ)/2, (1:ℚ)/4, (1:ℚ))] : List IterRec).length ∧
      ∃ rec, ([((1:ℕ), (3:ℚ)/2, (1:ℚ)/4, (1:ℚ))] : List IterRec).getLast? = some rec ∧ rec.1 = ([((1:ℕ), (3:ℚ)/2, (1:ℚ)/4, (1:ℚ))] : List IterRec).length ∧ rec.2.1 = (3:ℚ)/2) ∧
    (([((1:ℕ), (4:ℚ)/3, -(2:ℚ)/9, (1:ℚ))] : List IterRec).map Prod.fst = List.range' 1 ([((1:ℕ), (4:ℚ)/3, -(2:ℚ)/9, (1:ℚ))] : List IterRec).length ∧
      ∃ rec, ([((1:ℕ), (4:ℚ)/3, -(2:ℚ)/9, (1:ℚ))] : List IterRec).getLast? = some rec ∧ rec.1 = ([((1:ℕ), (4:ℚ)/3, -(2:ℚ)/9, (1:ℚ))] : List IterRec).length ∧ rec.2.1 = (4:ℚ)/3) ∧
    (([((1:ℕ), (1:ℚ), (0:ℚ), (1:ℚ))] : List IterRec).map Prod.fst = List.range' 1 ([((1:ℕ), (1:ℚ), (0:ℚ), (1:ℚ))] : List IterRec).length ∧
      ∃ rec, ([((1:ℕ), (1:ℚ), (0:ℚ), (1:ℚ))] : List IterRec).getLast? = some rec ∧ rec.1 = ([((1:ℕ), (1:ℚ), (0:ℚ), (1:ℚ))] : List IterRec).length ∧ rec.2.1 = (1:ℚ)) ∧
    (([((1:ℕ), (0:ℚ), (0:ℚ), (1:ℚ))] : List IterRec).map Prod.fst = List.range' 1 ([((1:ℕ), (0:ℚ), (0:ℚ), (1:ℚ))] : List IterRec).length ∧
      ∃ rec, ([((1:ℕ), (0:ℚ), (0:ℚ), (1:ℚ))] : List IterRec).getLast? = some rec ∧ rec.1 = ([((1:ℕ), (0:ℚ), (0:ℚ), (1:ℚ))] : List IterRec).length ∧ rec.2.1 = (0:ℚ)) ∧
    (([((1:ℕ), (1:ℚ), (0:ℚ), (0:ℚ))] : List IterRec).map Prod.fst = List.range' 1 ([((1:ℕ), (1:ℚ), (0:ℚ), (0:ℚ))] : List IterRec).length ∧
      ∃ rec, ([((1:ℕ), (1:ℚ), (0:ℚ), (0:ℚ))] : List IterRec).getLast? = some rec ∧ rec.1 = ([((1:ℕ), (1:ℚ), (0:ℚ), (0:ℚ))] : List IterRec).length ∧ rec.2.1 = (1:ℚ)) ∧
    (([((1:ℕ), (1:ℚ), (0:ℚ), (1:ℚ))] : List IterRec).map Prod.fst = List.range' 1 ([((1:ℕ), (1:ℚ), (0:ℚ), (1:ℚ))] : List IterRec).length ∧
      ∃ rec, ([((1:ℕ), (1:ℚ), (0:ℚ), (1:ℚ))] : List IterRec).getLast? = some rec ∧ rec.1 = ([((1:ℕ), (1:ℚ), (0:ℚ), (1:ℚ))] : List IterRec).length ∧ rec.2.1 = (1:ℚ)) :=
  ⟨C3_log_length_and_last_root.1 (fun x : ℚ => x * x - 2) 1 2 1 1 ((3:ℚ)/2) (some 1) _
      (by norm_num [bisection, bisectionLoop, abs_of_nonneg, abs_of_nonpos]),
   C3_log_length_and_last_root.2.1 (fun x : ℚ => x * x - 2) 1 2 1 1 ((4:ℚ)/3) (some 1) _
      (by norm_num [regula_falsi, regulaFalsiLoop, abs_of_nonneg, abs_of_nonpos]),
   C3_log_length_and_last_root.2.2.1 (fun x : ℚ => x - 1) 0 2 1 1 (1:ℚ) (some 1) _
      (by norm_num [secant, secantLoop, abs_of_nonneg, abs_of_nonpos]),
   C3_log_length_and_last_root.2.2.2.1 (fun x : ℚ => x) (fun _ : ℚ => 1) 1 1 1 (0:ℚ) (some 1) _
      (by norm_num [newton_raphson, newtonLoop, abs_of_nonneg, abs_of_nonpos]),
   C3_log_length_and_last_root.2.2.2.2.1 (fun _ : ℚ => 1) 1 1 1 (1:ℚ) (some 0) _
      (by norm_num [fixed_point_iteration, fixedPointLoop, abs_of_nonneg, abs_of_nonpos]),
   C3_log_length_and_last_root.2.2.2.2.2 (fun x : ℚ => x - 1) 2 1 1 1 (1:ℚ) (some 1) _
      (by norm_num [modified_secant, modifiedSecantLoop, abs_of_nonneg, abs_of_nonpos])⟩

/-- C4: for every valid bracket, positive tolerance and `max_iter ≥ 1`,
`bisection` always returns a populated result whose log has at most
`max_iter` records, and whenever the returned root does not meet the
tolerance the log has exactly `max_iter` records (exhaustion is a
populated, non-error return); concretely, on `f x = x² − 2`, `a = 1`,
`b = 2`, `max_iter = 1` it returns the non-converged midpoint `3/2` with the
current bracket width `1/2` and a 1-record log. -/
theorem C4_exhaustion_still_populated :
    (∀ (f : ℚ → ℚ) (a b tol : ℚ) (max_iter : ℕ),
      f a * f b < 0 → 0 < tol → 1 ≤ max_iter →
      ∃ r e l, bisection f a b tol max_iter = .ok (some r, some e, some l) ∧
        l.length ≤ max_iter ∧ (|f r| < tol ∨ l.length = max_iter)) ∧
    bisection (fun x : ℚ => x * x - 2) 1 2 (1/1000000) 1 =
      .ok (some (3/2), some (1/2), some [(1, 3/2, 1/4, 1)]) ∧
    ¬(|(3:ℚ)/2 * (3/2) - 2| < 1/1000000) := by
  refine ⟨?_, ?_, by norm_num [abs_of_nonneg]⟩
  · intro f a b tol max_iter hab htol hiter
    rw [bisection, if_neg (not_le.mpr hab)]
    obtain ⟨r, e, l, heq, hle, hor⟩ := bisectionLoop_total f tol max_iter a b 1 [] hiter
    simp only [List.length_nil, Nat.zero_add] at hle hor
    exact ⟨r, e, l, heq, hle, hor⟩
  · norm_num [bisection, bisectionLoop, abs_of_nonneg, abs_of_nonpos]

/-- Witness for C4 at the concrete scenario `f x = x² − 2`, `a = 1`, `b = 2`,
`tol = 10⁻⁶`, `max_iter = 1`. -/
theorem C4_exhaustion_still_populated_witness :
    ∃ r e l, bisection (fun x : ℚ => x * x - 2) 1 2 (1/1000000) 1 = .ok (some r, some e, some l) ∧
      l.length ≤ 1 ∧ (|(fun x : ℚ => x * x - 2) r| < 1/1000000 ∨ l.length = 1) :=
  C4_exhaustion_still_populated.1 (fun x : ℚ => x * x - 2) 1 2 (1/1000000) 1
    (by norm_num) (by norm_num) (by norm_num)

/-- C5: for every valid bracket and every populated `bisection` return, the
bracket-width field (fourth component) of each log record after the first is
exactly half the width field of the immediately preceding record. -/
theorem C5_width_halves (f : ℚ → ℚ) (a b tol : ℚ) (max_iter : ℕ)
    (hab : f a * f b < 0) (r e : Option ℚ) (l : List IterRec)
    (h : bisection f a b tol max_iter = .ok (r, e, some l)) :
    l.Chain' (fun p q => q.2.2.2 = p.2.2.2 / 2) := by
  rw [bisection, if_neg (not_le.mpr hab)] at h
  refine bisectionLoop_chain f tol max_iter a b 1 [] (by simp) ?_ r e l h
  intro rec hr
  simp at hr

/-- Witness for C5: a two-pass run of bisection on `f x = x² − 2`,
`a = 0`, `b = 2`, whose recorded widths are `2` then `1`. -/
theorem C5_width_halves_witness :
    ([((1:ℕ), (1:ℚ), (-1:ℚ), (2:ℚ)), ((2:ℕ), (3:ℚ)/2, (1:ℚ)/4, (1:ℚ))] : List IterRec).Chain'
      (fun p q => q.2.2.2 = p.2.2.2 / 2) :=
  C5_width_halves (fun x : ℚ => x * x - 2) 0 2 (1/1000000) 2 (by norm_num)
    (some (3/2)) (some (1/2)) _
    (by norm_num [bisection, bisectionLoop, abs_of_nonneg, abs_of_nonpos])

/-- C6 counterexample: for the continuous `f x = 100·x` on the valid bracket
`a = −1`, `b = 2` with `tol = 1`, the bound `ceil(log2((b−a)/tol))` equals
`2` (since `2¹ < 3 ≤ 2²`), yet bisection does not meet its stopping rule
`|f c| < tol` within 2 iterations: both recorded residuals (`50` and `−25`)
have absolute value at least `tol`, and the 2-pass run returns the
non-converged estimate `−1/4`. -/
theorem C6_counterexample :
    ((fun x : ℚ => 100 * x) (-1)) * ((fun x : ℚ => 100 * x) 2) < 0 ∧
    ((2:ℚ) - (-1)) / 1 ≤ 2 ^ 2 ∧ ¬(((2:ℚ) - (-1)) / 1 ≤ 2 ^ 1) ∧
    bisection (fun x : ℚ => 100 * x) (-1) 2 1 2 =
      .ok (some (-1/4), some (3/4), some [(1, 1/2, 50, 3), (2, -1/4, -25, 3/2)]) ∧
    ¬(|(50:ℚ)| < 1) ∧ ¬(|(-25:ℚ)| < 1) := by
  refine ⟨by norm_num, by norm_num, by norm_num, ?_,
    by norm_num [abs_of_nonneg], by norm_num [abs_of_nonpos]⟩
  norm_num [bisection, bisectionLoop, abs_of_nonneg, abs_of_nonpos]

/-- C6 amended: for every populated `bisection` return with positive
tolerance, the bracket-width field of the `k`-th record (0-based) equals
`|b − a| / 2^k` exactly, so the *bracket width* falls to at most the
tolerance within `ceil(log2((b−a)/tolerance))` iterations (whenever
`|b − a| ≤ 2^n · tol` and the run reaches record `k ≥ n`, that record's
width is at most `tol`); the code's actual stopping rule is the residual
test `|f c| < tol`, which need not be met within that bound. -/
theorem C6_amended_width_formula (f : ℚ → ℚ) (a b tol : ℚ) (max_iter : ℕ)
    (htol : 0 < tol) (r e : Option ℚ) (l : List IterRec)
    (h : bisection f a b tol max_iter = .ok (r, e, some l)) :
    (∀ k (hk : k < l.length), (l.get ⟨k, hk⟩).2.2.2 = |b - a| / 2 ^ k) ∧
    (∀ k (hk : k < l.length) (n : ℕ), |b - a| ≤ 2 ^ n * tol → n ≤ k →
      (l.get ⟨k, hk⟩).2.2.2 ≤ tol) := by
  rw [bisection] at h
  split_ifs at h with hpre
  · injection h with h'
    simp at h'
  · have hwidth : ∀ k (hk : k < l.length), (l.get ⟨k, hk⟩).2.2.2 = |b - a| / 2 ^ k := by
      refine bisectionLoop_width f tol (|b - a|) max_iter a b 1 [] ?_ (by simp) r e l h
      intro k hk
      simp at hk
    refine ⟨hwidth, ?_⟩
    intro k hk n hn hnk
    rw [hwidth k hk]
    have hpow : (2:ℚ) ^ n ≤ 2 ^ k := pow_le_pow_right (by norm_num) hnk
    rw [div_le_iff (by positivity : (0:ℚ) < 2 ^ k)]
    have hmul : (2:ℚ) ^ n * tol ≤ 2 ^ k * tol :=
      mul_le_mul_of_nonneg_right hpow htol.le
    linarith [hn, hmul]

/-- Witness for C6 amended: the two-pass run on `f x = x² − 2`, `a = 0`,
`b = 2`, `tol = 1`; record `k = 1` has width `|2 − 0| / 2¹ = 1`, and since
`|2 − 0| ≤ 2¹ · 1` that width is at most the tolerance. -/
theorem C6_amended_width_formula_witness :
    ((([((1:ℕ), (1:ℚ), (-1:ℚ), (2:ℚ)), ((2:ℕ), (3:ℚ)/2, (1:ℚ)/4, (1:ℚ))] : List IterRec).get
        ⟨1, by norm_num⟩).2.2.2 = |(2:ℚ) - 0| / 2 ^ 1) ∧
    ((([((1:ℕ), (1:ℚ), (-1:ℚ), (2:ℚ)), ((2:ℕ), (3:ℚ)/2, (1:ℚ)/4, (1:ℚ))] : List IterRec).get
        ⟨1, by norm_num⟩).2.2.2 ≤ 1) :=
  ⟨(C6_amended_width_formula (fun x : ℚ => x * x - 2) 0 2 1 2 (by norm_num)
      (some (3/2)) (some 1) _
      (by norm_num [bisection, bisectionLoop, abs_of_nonneg, abs_of_nonpos])).1 1 (by norm_num),
   (C6_amended_width_formula (fun x : ℚ => x * x - 2) 0 2 1 2 (by norm_num)
      (some (3/2)) (some 1) _
      (by norm_num [bisection, bisectionLoop, abs_of_nonneg, abs_of_nonpos])).2 1 (by norm_num)
      1 (by norm_num [abs_of_nonneg]) (by norm_num)⟩

/-- C7: whenever `f x1 = f x0` at the current step of `secant` — at entry,
or at any later loop state with at least one pass remaining — the method
fails with the `ZeroDivisionError` condition at that step, producing no
result; the fault is not suppressed. -/
theorem C7_secant_equal_values_fault (f : ℚ → ℚ) (tol : ℚ) :
    (∀ (x0 x1 : ℚ) (max_iter : ℕ), 1 ≤ max_iter → f x1 = f x0 →
      secant f x0 x1 tol max_iter = .error .zeroDivision) ∧
    (∀ (fuel : ℕ) (x0 x1 : ℚ) (i : ℕ) (log : List IterRec), 1 ≤ fuel → f x1 = f x0 →
      secantLoop f tol fuel x0 x1 i log = .error .zeroDivision) := by
  constructor
  · intro x0 x1 m hm h
    exact secantLoop_zero_denom f tol m x0 x1 1 [] hm h
  · intro fuel x0 x1 i log hf h
    exact secantLoop_zero_denom f tol fuel x0 x1 i log hf h

/-- Witness for C7: two guesses with equal function values under a constant
function raise the division fault at once. -/
theorem C7_secant_equal_values_fault_witness :
    secant (fun _ : ℚ => 1) 0 1 1 3 = .error .zeroDivision :=
  (C7_secant_equal_values_fault (fun _ : ℚ => 1) 1).1 0 1 3 (by norm_num) rfl

/-- C8 counterexample: a secant run that completes one full pass (appending
one record to the log) and meets a zero denominator on the second pass
returns only the bare `ZeroDivisionError`: the outcome carries no root, no
error measure and in particular not the one-record log accumulated before
the fault, refuting the claim that the abort preserves the accumulated
iteration log in the outcome surfaced to the caller (in the Python source
the exception propagates out of the function and the local `iterations`
list is lost). -/
theorem C8_counterexample :
    secant (fun x : ℚ => if x = 0 then 4 else if x = 4 then 2 else if x = 8 then 2 else 1)
        0 4 1 5 = .error .zeroDivision ∧
    (secant (fun x : ℚ => if x = 0 then 4 else if x = 4 then 2 else if x = 8 then 2 else 1)
        0 4 1 5).toOption = none := by
  have h : secant (fun x : ℚ => if x = 0 then 4 else if x = 4 then 2 else if x = 8 then 2 else 1)
      0 4 1 5 = .error .zeroDivision := by
    norm_num [secant, secantLoop, abs_of_nonneg, abs_of_nonpos]
  exact ⟨h, by rw [h]; rfl⟩

/-- C8 amended: a zero denominator at the current step of `secant`,
`newton_raphson` or `modified_secant` aborts the loop at that step with the
`ZeroDivisionError` condition as the entire outcome; the log accumulated so
far is discarded (the error carries no data) and no root, error or log is
returned. -/
theorem C8_amended_zero_denominator_aborts (f df : ℚ → ℚ) (delta tol : ℚ) (fuel : ℕ)
    (x0 x1 : ℚ) (i : ℕ) (log : List IterRec) (hfuel : 1 ≤ fuel) :
    (f x1 = f x0 → secantLoop f tol fuel x0 x1 i log = .error .zeroDivision) ∧
    (df x0 = 0 → newtonLoop f df tol fuel x0 i log = .error .zeroDivision) ∧
    (f (x0 + delta * x0) = f x0 →
      modifiedSecantLoop f delta tol fuel x0 i log = .error .zeroDivision) :=
  ⟨fun h => secantLoop_zero_denom f tol fuel x0 x1 i log hfuel h,
   fun h => newtonLoop_zero_denom f df tol fuel x0 i log hfuel h,
   fun h => modifiedSecantLoop_zero_denom f delta tol fuel x0 i log hfuel h⟩

/-- Witness for C8 amended: mid-loop states (index 2, one accumulated
record) of the three methods under functions with a vanishing denominator. -/
theorem C8_amended_zero_denominator_aborts_witness :
    (secantLoop (fun _ : ℚ => 1) 1 2 3 5 2 [(1, 3, 1, 1)] = .error .zeroDivision) ∧
    (newtonLoop (fun _ : ℚ => 1) (fun _ : ℚ => 0) 1 2 3 2 [(1, 3, 1, 1)] =
      .error .zeroDivision) ∧
    (modifiedSecantLoop (fun _ : ℚ => 1) 1 1 2 3 2 [(1, 3, 1, 1)] = .error .zeroDivision) :=
  let H := C8_amended_zero_denominator_aborts (fun _ : ℚ => 1) (fun _ : ℚ => 0) 1 1 2 3 5 2
    [(1, 3, 1, 1)] (by norm_num)
  ⟨H.1 rfl, H.2.1 rfl, H.2.2 rfl⟩

/-- C9: calling `modified_secant` with initial guess `x0 = 0` makes the
perturbation `delta · x0` vanish, the denominator
`f(x0 + delta·x0) − f(x0)` is then exactly zero, and the call faults with
`ZeroDivisionError` on the first iteration, producing no result. -/
theorem C9_modified_secant_zero_guess_faults (f : ℚ → ℚ) (delta tol : ℚ) (max_iter : ℕ)
    (hiter : 1 ≤ max_iter) :
    delta * (0:ℚ) = 0 ∧ f ((0:ℚ) + delta * 0) - f 0 = 0 ∧
    modified_secant f 0 delta tol max_iter = .error .zeroDivision := by
  refine ⟨mul_zero delta, by rw [mul_zero, add_zero, sub_self], ?_⟩
  exact modifiedSecantLoop_zero_denom f delta tol max_iter 0 1 [] hiter
    (by rw [mul_zero, add_zero])

/-- Witness for C9 at `f x = x`, `delta = 1/2`, `tol = 1`, `max_iter = 7`. -/
theorem C9_modified_secant_zero_guess_faults_witness :
    (1:ℚ)/2 * (0:ℚ) = 0 ∧
    (fun x : ℚ => x) ((0:ℚ) + (1:ℚ)/2 * 0) - (fun x : ℚ => x) 0 = 0 ∧
    modified_secant (fun x : ℚ => x) 0 (1/2) 1 7 = .error .zeroDivision :=
  C9_modified_secant_zero_guess_faults (fun x : ℚ => x) (1/2) 1 7 (by norm_num)

/-- C10: with a valid bracket and positive tolerance, the endpoint
replacement shared by `bisection` and `regula_falsi` (replace `b` by the
candidate `c` when `f a · f c < 0`, else replace `a`) keeps endpoints of
strictly opposite sign whenever the pass does not return (a zero residual
would have triggered the success return first); consequently
`regula_falsi` never meets a zero denominator `f b − f a` during its loop,
and `bisection` never raises any division fault at all. -/
theorem C10_bracket_invariant_preserved :
    (∀ (f : ℚ → ℚ) (a b c tol : ℚ), f a * f b < 0 → 0 < tol → ¬(|f c| < tol) →
      f (if f a * f c < 0 then a else c) * f (if f a * f c < 0 then c else b) < 0) ∧
    (∀ (f : ℚ → ℚ) (a b tol : ℚ) (max_iter : ℕ), f a * f b < 0 → 0 < tol →
      regula_falsi f a b tol max_iter ≠ .error .zeroDivision) ∧
    (∀ (f : ℚ → ℚ) (a b tol : ℚ) (max_iter : ℕ),
      bisection f a b tol max_iter ≠ .error .zeroDivision) := by
  refine ⟨fun f a b c tol hab htol hnc => bracket_update_preserved f a b c tol hab htol hnc,
    ?_, ?_⟩
  · intro f a b tol m hab htol h
    rw [regula_falsi, if_neg (not_le.mpr hab)] at h
    exact regulaFalsiLoop_ne_zeroDivision f tol htol m a b 1 [] hab h
  · intro f a b tol m h
    rw [bisection] at h
    split_ifs at h
    exact bisectionLoop_ne_zeroDivision f tol m a b 1 [] h

/-- Witness for C10 at `f x = x² − 2` on the bracket `[0, 2]`, candidate
`c = 1`, `tol = 1`, `max_iter = 100`. -/
theorem C10_bracket_invariant_preserved_witness :
    ((fun x : ℚ => x * x - 2)
        (if (fun x : ℚ => x * x - 2) 0 * (fun x : ℚ => x * x - 2) 1 < 0 then 0 else 1) *
      (fun x : ℚ => x * x - 2)
        (if (fun x : ℚ => x * x - 2) 0 * (fun x : ℚ => x * x - 2) 1 < 0 then 1 else 2) < 0) ∧
    regula_falsi (fun x : ℚ => x * x - 2) 0 2 1 100 ≠ .error .zeroDivision ∧
    bisection (fun x : ℚ => x * x - 2) 0 2 1 100 ≠ .error .zeroDivision :=
  ⟨C10_bracket_invariant_preserved.1 (fun x : ℚ => x * x - 2) 0 2 1 1
      (by norm_num) (by norm_num) (by norm_num [abs_of_nonpos]),
   C10_bracket_invariant_preserved.2.1 (fun x : ℚ => x * x - 2) 0 2 1 100
      (by norm_num) (by norm_num),
   C10_bracket_invariant_preserved.2.2 (fun x : ℚ => x * x - 2) 0 2 1 100⟩
